import Mathlib

/-!
Verification development for the ObjectSlot repository: a generational slot
pool (`ObjectSlotBase`, file ObjectSlotBase.h) with reference-counted strong
handles (`SlotRef`, file WeakSlotPtr.h), weak handles (`WeakSlotRef`), and the
singleton creation wrapper (`ObjectSlot`, file ObjectSlot.h).

Modelling conventions:
- `std::vector` fields become `List`; reads `v[i]` become `List.getD`
  (the C++ code always guards indices, so the default is never the value
  actually read on the paths the source exercises), writes become `List.set`.
- `uint32_t` and `size_t` values become `Nat`. Wrap-around of the 32-bit
  generation counter after 2^32 removals of one slot, and of indices past
  2^32 slots, is abstracted away (the counters only ever increase by one).
  `--m_count` becomes truncated subtraction; the source only decrements a
  positive count.
- `std::function<void()>` destroy hooks are opaque: a hook value is `Option
  Nat` (a hook identity, or null). Operations that may invoke hooks return,
  next to the new pool, the list of invocations they performed, in order.
- `std::queue<uint32_t>` becomes a `List Nat` whose head is the queue front;
  `push` appends at the tail.
- There is a single pool per element type (the class is used through the
  `ObjectSlot` singleton), so the `m_slot` pool pointer inside `SlotRef` and
  `WeakSlotRef` is modelled as a `Bool`: `true` for a pointer to the pool,
  `false` for `nullptr`.
-/

/-- Handle identifying an element inside the pool: an index plus a
generation counter (SlotHandle.h). -/
structure SlotHandle where
  index : Nat
  generation : Nat
deriving DecidableEq, Repr

namespace SlotHandle

/-- Sentinel index marking an explicitly invalid handle (`UINT32_MAX`). -/
def INVALID_INDEX : Nat := 2 ^ 32 - 1

/-- The invalid handle constant: sentinel index, generation 0. -/
def Invalid : SlotHandle := ⟨INVALID_INDEX, 0⟩

/-- Field-level validity check of a bare handle: the index is not the
sentinel. -/
def IsValid (h : SlotHandle) : Bool := h.index != INVALID_INDEX

end SlotHandle

/-- State of the object pool (`ObjectSlotBase<T>`): parallel arrays indexed
by slot position, a free list, the alive count and the capacity bound. -/
structure ObjectSlotBase (T : Type) where
  m_data : List T
  m_generations : List Nat
  m_alive : List Bool
  m_refCounts : List Nat
  m_onDestroyCallbacks : List (Option Nat)
  m_freeList : List Nat
  m_count : Nat
  m_maxCapacity : Nat
deriving DecidableEq, Repr

namespace ObjectSlotBase

variable {T : Type}

/-- Default-constructed pool: every vector empty, count 0, unbounded. -/
def empty : ObjectSlotBase T :=
  ⟨[], [], [], [], [], [], 0, 0⟩

/-- Well-formedness of a pool state: the five parallel vectors have the same
length and the free list only holds in-range dead indices. The C++ class
maintains this by construction; theorems that need it take it as a
hypothesis. -/
def WF (p : ObjectSlotBase T) : Prop :=
  p.m_generations.length = p.m_data.length ∧
  p.m_alive.length = p.m_data.length ∧
  p.m_refCounts.length = p.m_data.length ∧
  p.m_onDestroyCallbacks.length = p.m_data.length ∧
  ∀ i ∈ p.m_freeList, i < p.m_data.length ∧ p.m_alive.getD i false = false

instance (p : ObjectSlotBase T) [DecidableEq T] : Decidable p.WF := by
  unfold WF; infer_instance

/-- Validity of a handle against the pool (`IsValidHandle`): index in range,
slot alive, generation matching. -/
def IsValidHandle (p : ObjectSlotBase T) (h : SlotHandle) : Bool :=
  if h.index ≥ p.m_data.length then false
  else if !(p.m_alive.getD h.index false) then false
  else if p.m_generations.getD h.index 0 != h.generation then false
  else true

/-- Element lookup (`Get`): the stored element if the handle is valid,
nothing otherwise. The C++ method returns `&m_data[handle.index]` or
`nullptr`; it is `const` on the pool, so it is a pure function here. -/
def Get (p : ObjectSlotBase T) (h : SlotHandle) : Option T :=
  if !(p.IsValidHandle h) then none
  else p.m_data.get? h.index

/-- Reference count of a handle (`GetRefCount`); 0 when invalid. -/
def GetRefCount (p : ObjectSlotBase T) (h : SlotHandle) : Nat :=
  if !(p.IsValidHandle h) then 0
  else p.m_refCounts.getD h.index 0

/-- Number of alive elements (`Count`). -/
def Count (p : ObjectSlotBase T) : Nat := p.m_count

/-- Total number of allocated slots, dead ones included (`Capacity`). -/
def Capacity (p : ObjectSlotBase T) : Nat := p.m_data.length

/-- Setter for the capacity bound (`SetMaxCapacity`); 0 means unbounded. -/
def SetMaxCapacity (p : ObjectSlotBase T) (maxCapacity : Nat) : ObjectSlotBase T :=
  { p with m_maxCapacity := maxCapacity }

/-- Getter for the capacity bound (`GetMaxCapacity`). -/
def GetMaxCapacity (p : ObjectSlotBase T) : Nat := p.m_maxCapacity

/-- Creation admissibility (`CanCreate`): unbounded, or alive count below
the bound. -/
def CanCreate (p : ObjectSlotBase T) : Bool :=
  if p.m_maxCapacity = 0 then true
  else p.m_count < p.m_maxCapacity

/-- Bulk removal (`Clear`): the loop invokes, for each index `i` in
increasing order, the destroy hook of slot `i` when the slot is alive and
the hook is set; afterwards every vector is cleared, the free list is
emptied and the count reset. `m_maxCapacity` is not touched. The result
pairs the new pool with the invocation trace, as (index, hook) pairs in
invocation order. -/
def Clear (p : ObjectSlotBase T) : ObjectSlotBase T × List (Nat × Nat) :=
  (⟨[], [], [], [], [], [], 0, p.m_maxCapacity⟩,
   (List.range p.m_data.length).filterMap fun i =>
     if p.m_alive.getD i false then
       (p.m_onDestroyCallbacks.getD i none).map fun k => (i, k)
     else none)

/-- Storage pre-allocation (`Reserve`): only touches vector capacity, which
has no observable semantic effect, so it is the identity here. -/
def Reserve (p : ObjectSlotBase T) (_capacity : Nat) : ObjectSlotBase T := p

/-- Size the `ShrinkToFit` while-loop computes: starting from `n`, step down
while the last remaining slot is dead. -/
def shrinkSize (alive : List Bool) : Nat → Nat
  | 0 => 0
  | n + 1 => if alive.getD n false = false then shrinkSize alive n else n + 1

/-- Trailing-dead-slot truncation (`ShrinkToFit`): find the new size by
scanning dead slots from the back; if nothing shrinks, return unchanged;
otherwise truncate every vector to the new size and rebuild the free list,
keeping (in queue order) exactly the indices still in range. -/
def ShrinkToFit (p : ObjectSlotBase T) : ObjectSlotBase T :=
  let newSize := shrinkSize p.m_alive p.m_data.length
  if newSize = p.m_data.length then p
  else
    { m_data := p.m_data.take newSize
      m_generations := p.m_generations.take newSize
      m_alive := p.m_alive.take newSize
      m_refCounts := p.m_refCounts.take newSize
      m_onDestroyCallbacks := p.m_onDestroyCallbacks.take newSize
      m_freeList := p.m_freeList.filter fun index => index < newSize
      m_count := p.m_count
      m_maxCapacity := p.m_maxCapacity }

/-- Slot allocation (`AllocateSlot`): pop the free list when possible,
reusing the index and its current generation; otherwise append a fresh slot
with generation 0. Either way the slot starts alive, with refcount 0 and no
hook, and the count is incremented. -/
def AllocateSlot (p : ObjectSlotBase T) (obj : T) : ObjectSlotBase T × SlotHandle :=
  match p.m_freeList with
  | idx :: rest =>
      let gen := p.m_generations.getD idx 0
      ({ p with
          m_data := p.m_data.set idx obj
          m_alive := p.m_alive.set idx true
          m_refCounts := p.m_refCounts.set idx 0
          m_onDestroyCallbacks := p.m_onDestroyCallbacks.set idx none
          m_freeList := rest
          m_count := p.m_count + 1 }, ⟨idx, gen⟩)
  | [] =>
      ({ p with
          m_data := p.m_data ++ [obj]
          m_generations := p.m_generations ++ [0]
          m_alive := p.m_alive ++ [true]
          m_refCounts := p.m_refCounts ++ [0]
          m_onDestroyCallbacks := p.m_onDestroyCallbacks ++ [none]
          m_count := p.m_count + 1 }, ⟨p.m_data.length, 0⟩)

/-- Slot removal (`RemoveInternal`): invoke the destroy hook when set, and
only then null it out; then mark the slot dead, bump its generation, reset
the refcount, push the index onto the free list and decrement the count.
The second component is the hook-invocation trace (at most one entry). -/
def RemoveInternal (p : ObjectSlotBase T) (h : SlotHandle) : ObjectSlotBase T × List Nat :=
  let invoked : List Nat :=
    match p.m_onDestroyCallbacks.getD h.index none with
    | some k => [k]
    | none => []
  let callbacks :=
    match p.m_onDestroyCallbacks.getD h.index none with
    | some _ => p.m_onDestroyCallbacks.set h.index none
    | none => p.m_onDestroyCallbacks
  ({ p with
      m_onDestroyCallbacks := callbacks
      m_alive := p.m_alive.set h.index false
      m_generations := p.m_generations.set h.index (p.m_generations.getD h.index 0 + 1)
      m_refCounts := p.m_refCounts.set h.index 0
      m_freeList := p.m_freeList ++ [h.index]
      m_count := p.m_count - 1 }, invoked)

/-- Reference acquisition (`AddRef`): increment the refcount of a valid
handle, no-op otherwise. -/
def AddRef (p : ObjectSlotBase T) (h : SlotHandle) : ObjectSlotBase T :=
  if p.IsValidHandle h then
    { p with m_refCounts := p.m_refCounts.set h.index (p.m_refCounts.getD h.index 0 + 1) }
  else p

/-- Reference release (`ReleaseRef`): on a valid handle, decrement the
refcount (the source asserts it is positive beforehand) and remove the slot
when it reaches 0; no-op on an invalid handle. Second component is the
hook-invocation trace. -/
def ReleaseRef (p : ObjectSlotBase T) (h : SlotHandle) : ObjectSlotBase T × List Nat :=
  if p.IsValidHandle h then
    let rc := p.m_refCounts.getD h.index 0 - 1
    let p1 := { p with m_refCounts := p.m_refCounts.set h.index rc }
    if rc = 0 then p1.RemoveInternal h else (p1, [])
  else (p, [])

/-- Hook installation (`SetOnDestroyCallback`): store the hook for a valid
handle, no-op otherwise. -/
def SetOnDestroyCallback (p : ObjectSlotBase T) (h : SlotHandle) (k : Nat) : ObjectSlotBase T :=
  if p.IsValidHandle h then
    { p with m_onDestroyCallbacks := p.m_onDestroyCallbacks.set h.index (some k) }
  else p

/-- Hook removal (`ClearOnDestroyCallback`): null the hook of a valid
handle, no-op otherwise. -/
def ClearOnDestroyCallback (p : ObjectSlotBase T) (h : SlotHandle) : ObjectSlotBase T :=
  if p.IsValidHandle h then
    { p with m_onDestroyCallbacks := p.m_onDestroyCallbacks.set h.index none }
  else p

end ObjectSlotBase

/-- Strong reference (`SlotRef<T>`, file WeakSlotPtr.h): a handle plus the
pool pointer, modelled as a `Bool` because a type has a single pool (see the
header comment). -/
structure SlotRef where
  m_handle : SlotHandle
  m_slot : Bool
deriving DecidableEq, Repr

namespace SlotRef

variable {T : Type}

/-- Default- or nullptr-constructed `SlotRef`: invalid handle, null pool. -/
def empty : SlotRef := ⟨SlotHandle.Invalid, false⟩

/-- Validity of a strong reference (`IsValid`): non-null pool and a handle
the pool accepts. -/
def RefIsValid (p : ObjectSlotBase T) (s : SlotRef) : Bool :=
  s.m_slot && p.IsValidHandle s.m_handle

/-- Private release helper (`Release`): on a bound reference with a valid
handle, release one refcount unit on the pool; otherwise do nothing. Second
component is the hook-invocation trace. -/
def ReleaseOn (p : ObjectSlotBase T) (s : SlotRef) : ObjectSlotBase T × List Nat :=
  if s.m_slot && p.IsValidHandle s.m_handle then p.ReleaseRef s.m_handle
  else (p, [])

/-- Copy constructor (`SlotRef(const SlotRef&)`): the fields are copied
unconditionally; the refcount is incremented only when the source is bound
and its handle validates. Returns the updated pool and the new reference. -/
def copyCtor (p : ObjectSlotBase T) (other : SlotRef) : ObjectSlotBase T × SlotRef :=
  let r : SlotRef := ⟨other.m_handle, other.m_slot⟩
  (if r.m_slot && p.IsValidHandle r.m_handle then p.AddRef r.m_handle else p, r)

/-- Copy assignment (`operator=(const SlotRef&)`). C++ guards on pointer
identity `this != &other`; the `same` flag is that identity test. When the
operands differ, the target first releases its current binding, then copies
the fields and conditionally increments the refcount. Returns the updated
pool and the updated target. -/
def copyAssign (p : ObjectSlotBase T) (target other : SlotRef) (same : Bool) :
    ObjectSlotBase T × SlotRef :=
  if same then (p, target)
  else
    let p1 := (ReleaseOn p target).1
    let r : SlotRef := ⟨other.m_handle, other.m_slot⟩
    (if r.m_slot && p1.IsValidHandle r.m_handle then p1.AddRef r.m_handle else p1, r)

/-- Move assignment (`operator=(SlotRef&&)`): guarded by the same pointer
identity; when the operands differ, the target releases its binding and
takes the fields, and the source is emptied. Returns the updated pool, the
updated target, and the moved-from source. -/
def moveAssign (p : ObjectSlotBase T) (target other : SlotRef) (same : Bool) :
    ObjectSlotBase T × SlotRef × SlotRef :=
  if same then (p, target, other)
  else
    let p1 := (ReleaseOn p target).1
    (p1, ⟨other.m_handle, other.m_slot⟩, empty)

/-- Move constructor (`SlotRef(SlotRef&&)`): takes the fields without
touching the refcount and empties the source. Returns the new reference and
the moved-from source; the pool is untouched. -/
def moveCtor (other : SlotRef) : SlotRef × SlotRef :=
  (⟨other.m_handle, other.m_slot⟩, empty)

/-- Reset (`Reset`, also `operator=(nullptr)` and the destructor release
part): release the binding and return to the empty state. -/
def ResetRef (p : ObjectSlotBase T) (s : SlotRef) : ObjectSlotBase T × SlotRef :=
  ((ReleaseOn p s).1, empty)

/-- Element access through the reference (`Get`). -/
def RefGet (p : ObjectSlotBase T) (s : SlotRef) : Option T :=
  if !(RefIsValid p s) then none
  else p.Get s.m_handle

/-- Reference count observer (`UseCount`): 0 when invalid. -/
def UseCount (p : ObjectSlotBase T) (s : SlotRef) : Nat :=
  if !(RefIsValid p s) then 0
  else p.GetRefCount s.m_handle

/-- Handle extraction (`GetHandle`). -/
def GetHandle (s : SlotRef) : SlotHandle := s.m_handle

end SlotRef

/-- Weak reference (`WeakSlotRef<T>`). Modelled from the spec: the class
body of `WeakSlotRef` (and with it `Upgrade`) and the body of
`SlotRef::GetWeak` are not present under src — WeakSlotPtr.h only forward
declares the class and declares `GetWeak`. Per spec §4.3 a weak reference
holds the pool pointer and the handle and contributes nothing to the
refcount. -/
structure WeakSlotRef where
  m_handle : SlotHandle
  m_slot : Bool
deriving DecidableEq, Repr

namespace WeakSlotRef

variable {T : Type}

/-- Modelled from the spec: `SlotRef::GetWeak` (body missing from src)
derives a weak reference carrying the same pool pointer and handle. -/
def ofStrong (s : SlotRef) : WeakSlotRef := ⟨s.m_handle, s.m_slot⟩

/-- Modelled from the spec: `WeakSlotRef::Upgrade` (class body missing from
src). If the pool pointer is non-null and the handle is valid, increment
the refcount and return a bound strong reference; otherwise return
nothing, leaving the pool untouched. -/
def Upgrade (p : ObjectSlotBase T) (w : WeakSlotRef) : ObjectSlotBase T × Option SlotRef :=
  if w.m_slot && p.IsValidHandle w.m_handle then
    (p.AddRef w.m_handle, some ⟨w.m_handle, true⟩)
  else (p, none)

end WeakSlotRef

namespace ObjectSlot

variable {T : Type}

/-- Element creation (`ObjectSlot::Create`): refuse with an empty reference
when `CanCreate` fails; otherwise allocate a slot, set its refcount to 1
via `AddRef`, and hand out a bound reference. -/
def Create (p : ObjectSlotBase T) (obj : T) : ObjectSlotBase T × SlotRef :=
  if !p.CanCreate then (p, SlotRef.empty)
  else
    let (p1, handle) := p.AllocateSlot obj
    (p1.AddRef handle, ⟨handle, true⟩)

end ObjectSlot

/-- Atomic effects of `RemoveInternal`, in the order the statements execute,
used to talk about the position of the hook invocation relative to the
nulling of the hook field. -/
inductive RIEvent where
  | invoke (hook : Nat)
  | clearHook
  | setDead
  | incGen
  | resetRefCount
  | pushFree
  | decCount
deriving DecidableEq, Repr

/-- Statement-order event trace of `RemoveInternal` (ObjectSlotBase.h): when
the hook of the slot is set, the call happens first and the nulling of the
field second; then the slot is marked dead, the generation bumped, the
refcount reset, the index pushed to the free list and the count dropped. -/
def removeInternalEvents {T : Type} (p : ObjectSlotBase T) (h : SlotHandle) : List RIEvent :=
  (match p.m_onDestroyCallbacks.getD h.index none with
   | some k => [RIEvent.invoke k, RIEvent.clearHook]
   | none => []) ++
  [RIEvent.setDead, RIEvent.incGen, RIEvent.resetRefCount, RIEvent.pushFree, RIEvent.decCount]

/-- Check for a hook-invocation event. -/
def RIEvent.isInvoke : RIEvent → Bool
  | .invoke _ => true
  | _ => false

/-- Property that every hook invocation in an event trace is preceded by a
nulling of the hook field (the "cleared before invocation" discipline). -/
def ClearPrecedesInvoke (es : List RIEvent) : Prop :=
  ∀ j < es.length, (es.getD j RIEvent.decCount).isInvoke = true →
    ∃ i < j, es.getD i RIEvent.decCount = RIEvent.clearHook

instance (es : List RIEvent) : Decidable (ClearPrecedesInvoke es) := by
  unfold ClearPrecedesInvoke; infer_instance

/-- Public pool operations, for claims quantifying over operation
sequences. `create` is `ObjectSlot::Create`; `addRef` and `releaseRef` are
the refcount adjustments a strong reference performs when it is copied or
dropped; the rest are the public methods of the pool. -/
inductive PoolOp (T : Type) where
  | create (v : T)
  | addRef (h : SlotHandle)
  | releaseRef (h : SlotHandle)
  | setMaxCapacity (n : Nat)
  | reserve (n : Nat)
  | setOnDestroy (h : SlotHandle) (k : Nat)
  | clearOnDestroy (h : SlotHandle)
  | shrinkToFit
  | clear
deriving DecidableEq, Repr

/-- Effect of one public operation on the pool state (traces and returned
references discarded). -/
def applyOp {T : Type} (p : ObjectSlotBase T) : PoolOp T → ObjectSlotBase T
  | .create v => (ObjectSlot.Create p v).1
  | .addRef h => p.AddRef h
  | .releaseRef h => (p.ReleaseRef h).1
  | .setMaxCapacity n => p.SetMaxCapacity n
  | .reserve n => p.Reserve n
  | .setOnDestroy h k => p.SetOnDestroyCallback h k
  | .clearOnDestroy h => p.ClearOnDestroyCallback h
  | .shrinkToFit => p.ShrinkToFit
  | .clear => (p.Clear).1

/-- Effect of a sequence of public operations, first element first. -/
def applyOps {T : Type} (p : ObjectSlotBase T) (ops : List (PoolOp T)) : ObjectSlotBase T :=
  ops.foldl applyOp p

/-- Operations that keep every already-allocated slot position allocated:
everything except `Clear` (which discards the arrays) and `ShrinkToFit`
(which may truncate trailing slots). -/
def PoolOp.keepsSlots {T : Type} : PoolOp T → Bool
  | .shrinkToFit => false
  | .clear => false
  | _ => true

/-- Staleness of a handle: its slot position is allocated but the slot
generation has moved past the handle generation. A stale handle can never
validate, and slot-keeping operations preserve staleness. -/
def Stale {T : Type} (p : ObjectSlotBase T) (h : SlotHandle) : Prop :=
  h.index < p.m_generations.length ∧
  h.generation < p.m_generations.getD h.index 0

instance {T : Type} (p : ObjectSlotBase T) (h : SlotHandle) : Decidable (Stale p h) := by
  unfold Stale; infer_instance

/-- State of a live slot seen through a handle: the handle validates, the
refcount reads `n`, and the index is inside each parallel vector it gets
written to. -/
def LiveAt {T : Type} (p : ObjectSlotBase T) (h : SlotHandle) (n : Nat) : Prop :=
  p.IsValidHandle h = true ∧
  p.m_refCounts.getD h.index 0 = n ∧
  h.index < p.m_refCounts.length ∧
  h.index < p.m_generations.length ∧
  h.index < p.m_alive.length

instance {T : Type} (p : ObjectSlotBase T) (h : SlotHandle) (n : Nat) :
    Decidable (LiveAt p h n) := by
  unfold LiveAt; infer_instance

/-- Iterated `AddRef`: the pool after `n` further strong copies of a
reference to `h` are made. -/
def iterAddRef {T : Type} (p : ObjectSlotBase T) (h : SlotHandle) : Nat → ObjectSlotBase T
  | 0 => p
  | n + 1 => iterAddRef (p.AddRef h) h n

/-- Iterated `ReleaseRef`: the pool after `n` strong copies of a reference
to `h` are dropped. -/
def iterReleaseRef {T : Type} (p : ObjectSlotBase T) (h : SlotHandle) : Nat → ObjectSlotBase T
  | 0 => p
  | n + 1 => iterReleaseRef (p.ReleaseRef h).1 h n

/-- Concrete pool with one live slot holding value 5, refcount 1, no hook. -/
def poolOne : ObjectSlotBase Nat :=
  ⟨[5], [0], [true], [1], [none], [], 1, 0⟩

/-- Concrete pool with one live slot that carries destroy hook 7. -/
def poolWithHook : ObjectSlotBase Nat :=
  ⟨[5], [0], [true], [1], [some 7], [], 1, 0⟩

/-- Concrete pool whose only slot has been recycled once (generation 1), so
a generation-0 handle to index 0 is stale. -/
def poolRecycled : ObjectSlotBase Nat :=
  ⟨[5], [1], [true], [1], [none], [], 1, 0⟩

/-- Strong reference that is bound to the pool but holds a stale handle
(index 0 at generation 0). -/
def refStale : SlotRef := ⟨⟨0, 0⟩, true⟩

/-- Concrete pool with three slots, the middle one dead, the live ones
carrying hooks 5 and 7 and the dead one hook 6. -/
def poolThree : ObjectSlotBase Nat :=
  ⟨[10, 11, 12], [0, 1, 0], [true, false, true], [1, 0, 1],
   [some 5, some 6, some 7], [1], 2, 0⟩

/-- Concrete pool with five slots where the trailing two (indices 3 and 4)
are dead, matching the shrink example of the spec. -/
def poolFive : ObjectSlotBase Nat :=
  ⟨[10, 11, 12, 13, 14], [0, 0, 0, 1, 1], [true, true, true, false, false],
   [1, 1, 1, 0, 0], [none, none, none, none, none], [3, 4], 3, 0⟩

/-- Scenario pool for capacity enforcement: empty pool with the bound set
to 2. -/
def capPool0 : ObjectSlotBase Nat := ObjectSlotBase.empty.SetMaxCapacity 2

/-- First creation in the capacity scenario. -/
def capStep1 : ObjectSlotBase Nat × SlotRef := ObjectSlot.Create capPool0 1

/-- Second creation in the capacity scenario. -/
def capStep2 : ObjectSlotBase Nat × SlotRef := ObjectSlot.Create capStep1.1 2

/-- Third (refused) creation in the capacity scenario. -/
def capStep3 : ObjectSlotBase Nat × SlotRef := ObjectSlot.Create capStep2.1 3

/-- Generation-safety scenario, step 1: create an element in a fresh pool;
the minted handle is (0, 0). -/
def genStep1 : ObjectSlotBase Nat × SlotRef := ObjectSlot.Create ObjectSlotBase.empty 42

/-- Generation-safety scenario, step 2: free the slot with `Clear`. -/
def genStep2 : ObjectSlotBase Nat := (genStep1.1.Clear).1

/-- Generation-safety scenario, step 3: create again after the `Clear`. -/
def genStep3 : ObjectSlotBase Nat × SlotRef := ObjectSlot.Create genStep2 43

namespace ObjectSlotBase

variable {T : Type}

theorem isValidHandle_iff (p : ObjectSlotBase T) (h : SlotHandle) :
    p.IsValidHandle h = true ↔
      h.index < p.m_data.length ∧ p.m_alive.getD h.index false = true ∧
        p.m_generations.getD h.index 0 = h.generation := by
  unfold IsValidHandle
  by_cases h1 : h.index ≥ p.m_data.length
  · simp only [h1, if_true]
    constructor
    · intro hc; cases hc
    · rintro ⟨hlt, -, -⟩; omega
  · simp only [h1, if_false]
    by_cases h2 : p.m_alive.getD h.index false
    · by_cases h3 : p.m_generations.getD h.index 0 = h.generation <;>
        simp [h2, h3] <;> omega
    · simp [h2]; omega

theorem addRef_fields (p : ObjectSlotBase T) (h : SlotHandle) :
    (p.AddRef h).m_data = p.m_data ∧ (p.AddRef h).m_generations = p.m_generations ∧
      (p.AddRef h).m_alive = p.m_alive ∧
      (p.AddRef h).m_onDestroyCallbacks = p.m_onDestroyCallbacks ∧
      (p.AddRef h).m_refCounts.length = p.m_refCounts.length := by
  unfold AddRef; split <;> exact ⟨rfl, rfl, rfl, rfl, by simp⟩

theorem isValidHandle_addRef (p : ObjectSlotBase T) (h h2 : SlotHandle) :
    (p.AddRef h).IsValidHandle h2 = p.IsValidHandle h2 := by
  unfold IsValidHandle
  rw [(addRef_fields p h).1, (addRef_fields p h).2.1, (addRef_fields p h).2.2.1]

theorem getRefCount_addRef_self (p : ObjectSlotBase T) (h : SlotHandle)
    (hv : p.IsValidHandle h = true) (hlen : h.index < p.m_refCounts.length) :
    (p.AddRef h).GetRefCount h = p.GetRefCount h + 1 := by
  have hv2 : (p.AddRef h).IsValidHandle h = true := by
    rw [isValidHandle_addRef]; exact hv
  unfold GetRefCount
  simp only [hv, hv2, Bool.not_true, Bool.false_eq_true, if_false]
  show (p.AddRef h).m_refCounts.getD h.index 0 = p.m_refCounts.getD h.index 0 + 1
  unfold AddRef
  simp only [hv, if_true]
  rw [List.getD_eq_getElem?_getD, List.getElem?_set_self hlen]
  simp

end ObjectSlotBase

/-- C1: for every pool state and handle, `Get` returns the stored element
exactly when the handle is valid — index inside the storage array, slot
alive, generation matching — and returns null otherwise. `Get` is a
`const` method of the pool, modelled as a pure function, so it cannot
modify pool state. -/
theorem get_returns_stored_iff_valid {T : Type} (p : ObjectSlotBase T) (h : SlotHandle) :
    (p.IsValidHandle h = true ↔
      h.index < p.m_data.length ∧ p.m_alive.getD h.index false = true ∧
        p.m_generations.getD h.index 0 = h.generation) ∧
    (p.IsValidHandle h = true →
      p.Get h = p.m_data.get? h.index ∧ (p.Get h).isSome = true) ∧
    (p.IsValidHandle h = false → p.Get h = none) := by
  refine ⟨ObjectSlotBase.isValidHandle_iff p h, fun hv => ?_, fun hv => ?_⟩
  · have hlt : h.index < p.m_data.length :=
      ((ObjectSlotBase.isValidHandle_iff p h).mp hv).1
    have hg : p.Get h = p.m_data.get? h.index := by
      unfold ObjectSlotBase.Get
      rw [hv]
      rfl
    refine ⟨hg, ?_⟩
    rw [hg, List.get?_eq_getElem?, List.getElem?_eq_getElem hlt]
    rfl
  · unfold ObjectSlotBase.Get
    simp [hv]

/-- Witness for C1 at a concrete pool: the valid handle (0, 0) reads value
5, while the stale-generation handle (0, 1) and the out-of-range handle
(3, 0) read nothing. -/
theorem get_returns_stored_iff_valid_witness :
    ObjectSlotBase.Get poolOne ⟨0, 0⟩ = some 5 ∧
    ObjectSlotBase.Get poolOne ⟨0, 1⟩ = none ∧
    ObjectSlotBase.Get poolOne ⟨3, 0⟩ = none := by
  refine ⟨?_, ?_, ?_⟩
  · have hh := (get_returns_stored_iff_valid poolOne ⟨0, 0⟩).2.1 (by decide)
    rw [hh.1]; rfl
  · exact (get_returns_stored_iff_valid poolOne ⟨0, 1⟩).2.2 (by decide)
  · exact (get_returns_stored_iff_valid poolOne ⟨3, 0⟩).2.2 (by decide)

/-- C10: self-assignment of a `SlotRef`, by copy or by move, is a complete
no-op: the C++ operators guard on pointer identity, so the reference
fields, the slot refcount and the whole pool state are unchanged, and in
particular the element is not destroyed. -/
theorem self_assignment_noop {T : Type} (p : ObjectSlotBase T) (s : SlotRef) :
    SlotRef.copyAssign p s s true = (p, s) ∧
    SlotRef.moveAssign p s s true = (p, s, s) ∧
    SlotRef.RefGet (SlotRef.copyAssign p s s true).1 (SlotRef.copyAssign p s s true).2 =
      SlotRef.RefGet p s ∧
    SlotRef.UseCount (SlotRef.copyAssign p s s true).1 (SlotRef.copyAssign p s s true).2 =
      SlotRef.UseCount p s := by
  exact ⟨rfl, rfl, rfl, rfl⟩


/-- C9 counterexample: at a concrete pool whose slot 0 carries hook 7,
`RemoveInternal` produces the invocation as the very first event and nulls
the hook field only afterwards, so the claimed cleared-before-invocation
discipline fails. -/
theorem hook_cleared_before_invocation_cex :
    ¬ ClearPrecedesInvoke (removeInternalEvents poolWithHook ⟨0, 0⟩) ∧
    removeInternalEvents poolWithHook ⟨0, 0⟩ =
      [RIEvent.invoke 7, RIEvent.clearHook, RIEvent.setDead, RIEvent.incGen,
       RIEvent.resetRefCount, RIEvent.pushFree, RIEvent.decCount] := by
  exact ⟨by decide, rfl⟩

/-- C9 amended: during removal the stored destroy hook is invoked first and
nulled immediately afterwards (invoke-then-clear, not clear-then-invoke),
so after `RemoveInternal` the hook field of the slot is empty and the hook
ran exactly once on that straight-line path; `Clear` also invokes hooks
without clearing them beforehand and then discards all hook storage. -/
theorem remove_invokes_hook_then_clears {T : Type} (p : ObjectSlotBase T) (h : SlotHandle)
    (k : Nat) (hk : p.m_onDestroyCallbacks.getD h.index none = some k)
    (hlen : h.index < p.m_onDestroyCallbacks.length) :
    removeInternalEvents p h =
      [RIEvent.invoke k, RIEvent.clearHook, RIEvent.setDead, RIEvent.incGen,
       RIEvent.resetRefCount, RIEvent.pushFree, RIEvent.decCount] ∧
    (p.RemoveInternal h).2 = [k] ∧
    ((p.RemoveInternal h).1).m_onDestroyCallbacks.getD h.index none = none ∧
    ((p.Clear).1).m_onDestroyCallbacks = [] := by
  refine ⟨?_, ?_, ?_, rfl⟩
  · unfold removeInternalEvents
    rw [hk]
    rfl
  · unfold ObjectSlotBase.RemoveInternal
    simp only [hk]
  · show ((match p.m_onDestroyCallbacks.getD h.index none with
      | some _ => p.m_onDestroyCallbacks.set h.index none
      | none => p.m_onDestroyCallbacks) : List (Option Nat)).getD h.index none = none
    rw [hk]
    rw [List.getD_eq_getElem?_getD, List.getElem?_set_self hlen]
    rfl

/-- Witness for the amended C9 at the concrete pool with hook 7 on slot
0. -/
theorem remove_invokes_hook_then_clears_witness :
    removeInternalEvents poolWithHook ⟨0, 0⟩ =
      [RIEvent.invoke 7, RIEvent.clearHook, RIEvent.setDead, RIEvent.incGen,
       RIEvent.resetRefCount, RIEvent.pushFree, RIEvent.decCount] ∧
    (poolWithHook.RemoveInternal ⟨0, 0⟩).2 = [7] ∧
    ((poolWithHook.RemoveInternal ⟨0, 0⟩).1).m_onDestroyCallbacks.getD 0 none = none ∧
    ((poolWithHook.Clear).1).m_onDestroyCallbacks = [] :=
  remove_invokes_hook_then_clears poolWithHook ⟨0, 0⟩ 7 (by decide) (by decide)

/-- C6: `CanCreate` is true exactly when the pool is unbounded (bound 0) or
the alive count is below the bound; and in the concrete scenario with the
bound set to 2, two creations succeed (and stay valid), while the third
returns the empty reference and leaves the pool untouched with count 2. -/
theorem can_create_iff_capacity :
    (∀ (T : Type) (p : ObjectSlotBase T),
        p.CanCreate = true ↔ p.m_maxCapacity = 0 ∨ p.m_count < p.m_maxCapacity) ∧
    (SlotRef.RefIsValid capStep3.1 capStep1.2 = true ∧
     SlotRef.RefIsValid capStep3.1 capStep2.2 = true ∧
     capStep3.2 = SlotRef.empty ∧
     capStep3.1 = capStep2.1 ∧
     capStep3.1.Count = 2) := by
  constructor
  · intro T p
    unfold ObjectSlotBase.CanCreate
    by_cases h0 : p.m_maxCapacity = 0
    · simp [h0]
    · simp only [h0, if_false]
      simp [h0, decide_eq_true_eq]
  · decide

/-- C5 (the WeakSlotRef class body is absent from src; `Upgrade` and
`ofStrong` are modelled from the spec): `Upgrade` returns a bound strong
reference and bumps the slot refcount by one exactly when the pool pointer
is non-null and the handle validates; otherwise it returns nothing and
leaves the pool untouched; and in particular a weak reference whose slot
was recycled at the same index with a higher generation always fails to
upgrade. -/
theorem weak_upgrade_iff_valid {T : Type} (p : ObjectSlotBase T) (w : WeakSlotRef)
    (hlen : w.m_handle.index < p.m_refCounts.length) :
    (w.m_slot = true → p.IsValidHandle w.m_handle = true →
      (WeakSlotRef.Upgrade p w).2 = some ⟨w.m_handle, true⟩ ∧
      SlotRef.RefIsValid (WeakSlotRef.Upgrade p w).1 ⟨w.m_handle, true⟩ = true ∧
      ((WeakSlotRef.Upgrade p w).1).GetRefCount w.m_handle = p.GetRefCount w.m_handle + 1) ∧
    (¬(w.m_slot = true ∧ p.IsValidHandle w.m_handle = true) →
      WeakSlotRef.Upgrade p w = (p, none)) ∧
    (w.m_handle.generation < p.m_generations.getD w.m_handle.index 0 →
      (WeakSlotRef.Upgrade p w).2 = none) := by
  refine ⟨fun hb hv => ?_, fun hnot => ?_, fun hgen => ?_⟩
  · have hcond : (w.m_slot && p.IsValidHandle w.m_handle) = true := by
      rw [hb, hv]; rfl
    have heq : WeakSlotRef.Upgrade p w = (p.AddRef w.m_handle, some ⟨w.m_handle, true⟩) := by
      unfold WeakSlotRef.Upgrade; rw [hcond]; rfl
    rw [heq]
    refine ⟨rfl, ?_, ?_⟩
    · unfold SlotRef.RefIsValid
      show (true && (p.AddRef w.m_handle).IsValidHandle w.m_handle) = true
      rw [ObjectSlotBase.isValidHandle_addRef, hv]
      rfl
    · exact ObjectSlotBase.getRefCount_addRef_self p w.m_handle hv hlen
  · have hcond : (w.m_slot && p.IsValidHandle w.m_handle) = false := by
      cases hs : w.m_slot
      · rfl
      · cases hvc : p.IsValidHandle w.m_handle
        · rfl
        · exact absurd ⟨hs, hvc⟩ hnot
    unfold WeakSlotRef.Upgrade
    rw [hcond]
    rfl
  · have hvf : p.IsValidHandle w.m_handle = false := by
      cases hvt : p.IsValidHandle w.m_handle
      · rfl
      · have hge := ((ObjectSlotBase.isValidHandle_iff p w.m_handle).mp hvt).2.2
        omega
    have hcond : (w.m_slot && p.IsValidHandle w.m_handle) = false := by
      rw [hvf]
      exact Bool.and_false w.m_slot
    unfold WeakSlotRef.Upgrade
    rw [hcond]
    rfl

/-- Witness for C5: over the one-slot pool, the weak reference at the live
handle upgrades with the refcount moving 1 to 2, and over the recycled
pool (generation already 1) the generation-0 weak reference fails. -/
theorem weak_upgrade_iff_valid_witness :
    ((WeakSlotRef.Upgrade poolOne ⟨⟨0, 0⟩, true⟩).2 = some ⟨⟨0, 0⟩, true⟩ ∧
     ((WeakSlotRef.Upgrade poolOne ⟨⟨0, 0⟩, true⟩).1).GetRefCount ⟨0, 0⟩ =
       poolOne.GetRefCount ⟨0, 0⟩ + 1) ∧
    (WeakSlotRef.Upgrade poolRecycled ⟨⟨0, 0⟩, true⟩).2 = none := by
  refine ⟨?_, ?_⟩
  · have hh := weak_upgrade_iff_valid poolOne ⟨⟨0, 0⟩, true⟩ (by decide)
    have hc := hh.1 rfl (by decide)
    exact ⟨hc.1, hc.2.2⟩
  · exact (weak_upgrade_iff_valid poolRecycled ⟨⟨0, 0⟩, true⟩ (by decide)).2.2 (by decide)

/-- Projection of the hook-invocation trace of `Clear` onto indices: the
invoked indices are exactly the indices that are alive and carry a hook,
filtered from the scan order. -/
theorem map_fst_filterMap_hooks (alive : List Bool) (cbs : List (Option Nat)) (l : List Nat) :
    ((l.filterMap fun i =>
        if alive.getD i false then (cbs.getD i none).map fun k => (i, k) else none).map
      Prod.fst) =
      l.filter fun i => alive.getD i false && (cbs.getD i none).isSome := by
  induction l with
  | nil => rfl
  | cons a l ih =>
      cases ha : alive.getD a false with
      | false =>
          simp [List.filterMap_cons, List.filter_cons, ← List.getD_eq_getElem?_getD, ha, ih]
      | true =>
          cases hc : cbs.getD a none with
          | none =>
              simp [List.filterMap_cons, List.filter_cons, ← List.getD_eq_getElem?_getD, ha,
                hc, ih]
          | some k =>
              simp [List.filterMap_cons, List.filter_cons, ← List.getD_eq_getElem?_getD, ha,
                hc, ih]

/-- Reading a non-default value through `getD` places the index inside the
list. -/
theorem lt_length_of_getD_true (alive : List Bool) (i : Nat)
    (h : alive.getD i false = true) : i < alive.length := by
  by_contra hge
  rw [List.getD_eq_default] at h
  · cases h
  · omega

/-- C4: `Clear` on any well-formed pool invokes the destroy hook of each
alive slot that has one exactly once, in strictly increasing index order
(the trace indices are the increasing enumeration of alive hooked slots,
each hook being the one stored at that slot), and afterwards the pool is
empty: count 0, capacity 0, empty free list. -/
theorem clear_hooks_in_order {T : Type} (p : ObjectSlotBase T) (hwf : p.WF) :
    ((p.Clear).2).map Prod.fst =
      (List.range p.m_data.length).filter
        (fun i => p.m_alive.getD i false && (p.m_onDestroyCallbacks.getD i none).isSome) ∧
    List.Pairwise (· < ·) (((p.Clear).2).map Prod.fst) ∧
    (∀ e ∈ (p.Clear).2,
      p.m_onDestroyCallbacks.getD e.1 none = some e.2 ∧ p.m_alive.getD e.1 false = true) ∧
    (∀ i, p.m_alive.getD i false = true →
      (p.m_onDestroyCallbacks.getD i none).isSome = true →
      (((p.Clear).2).map Prod.fst).count i = 1) ∧
    ((p.Clear).1).Count = 0 ∧ ((p.Clear).1).Capacity = 0 ∧
    ((p.Clear).1).m_freeList = [] := by
  have htr : ((p.Clear).2).map Prod.fst =
      (List.range p.m_data.length).filter
        (fun i => p.m_alive.getD i false && (p.m_onDestroyCallbacks.getD i none).isSome) :=
    map_fst_filterMap_hooks p.m_alive p.m_onDestroyCallbacks (List.range p.m_data.length)
  refine ⟨htr, ?_, ?_, ?_, rfl, rfl, rfl⟩
  · rw [htr]
    exact List.Pairwise.sublist (List.filter_sublist _) (List.pairwise_lt_range _)
  · intro e he
    obtain ⟨i, -, heq⟩ := List.mem_filterMap.mp he
    cases ha : p.m_alive.getD i false with
    | false => rw [ha] at heq; cases heq
    | true =>
        rw [ha] at heq
        simp only [if_true] at heq
        cases hc : p.m_onDestroyCallbacks.getD i none with
        | none => rw [hc] at heq; cases heq
        | some k =>
            rw [hc] at heq
            cases heq
            exact ⟨hc, ha⟩
  · intro i hai hci
    rw [htr]
    have hlt : i < p.m_data.length := by
      have hia := lt_length_of_getD_true p.m_alive i hai
      have hal := hwf.2.1
      omega
    exact List.count_eq_one_of_mem
      ((List.nodup_range _).filter _)
      (List.mem_filter.mpr ⟨List.mem_range.mpr hlt, by rw [hai, hci]; rfl⟩)

/-- Witness for C4 at the three-slot pool (slots 0 and 2 alive with hooks 5
and 7, slot 1 dead with hook 6): the trace is exactly (0,5) then (2,7),
each invoked once, and the pool resets. -/
theorem clear_hooks_in_order_witness :
    ((poolThree.Clear).2) = [(0, 5), (2, 7)] ∧
    (((poolThree.Clear).2).map Prod.fst).count 0 = 1 ∧
    (((poolThree.Clear).2).map Prod.fst).count 2 = 1 ∧
    ((poolThree.Clear).1).Count = 0 ∧ ((poolThree.Clear).1).Capacity = 0 := by
  refine ⟨by decide, ?_, ?_,
    (clear_hooks_in_order poolThree (by decide)).2.2.2.2.1,
    (clear_hooks_in_order poolThree (by decide)).2.2.2.2.2.1⟩
  · exact (clear_hooks_in_order poolThree (by decide)).2.2.2.1 0 (by decide) (by decide)
  · exact (clear_hooks_in_order poolThree (by decide)).2.2.2.1 2 (by decide) (by decide)

namespace ObjectSlotBase

theorem shrinkSize_le (alive : List Bool) (n : Nat) : shrinkSize alive n ≤ n := by
  induction n with
  | zero => exact Nat.le_refl 0
  | succ m ih =>
      unfold shrinkSize
      split
      · omega
      · omega

theorem shrinkSize_dead (alive : List Bool) (n : Nat) :
    ∀ i, shrinkSize alive n ≤ i → i < n → alive.getD i false = false := by
  induction n with
  | zero => intro i _ hi; omega
  | succ m ih =>
      intro i hge hlt
      unfold shrinkSize at hge
      by_cases hm : alive.getD m false = false
      · rw [if_pos hm] at hge
        by_cases him : i = m
        · rw [him]; exact hm
        · exact ih i hge (by omega)
      · rw [if_neg hm] at hge
        omega

theorem shrinkSize_boundary (alive : List Bool) (n : Nat) :
    shrinkSize alive n = 0 ∨ alive.getD (shrinkSize alive n - 1) false = true := by
  induction n with
  | zero => exact Or.inl rfl
  | succ m ih =>
      unfold shrinkSize
      by_cases hm : alive.getD m false = false
      · rw [if_pos hm]; exact ih
      · rw [if_neg hm]
        right
        simp only [Nat.add_sub_cancel]
        cases hv : alive.getD m false
        · exact absurd hv hm
        · rfl

theorem shrinkSize_of_last_alive (alive : List Bool) (n : Nat)
    (hn : n = 0 ∨ alive.getD (n - 1) false = true) : shrinkSize alive n = n := by
  cases hn with
  | inl h0 => rw [h0]; rfl
  | inr ha =>
      cases n with
      | zero => rfl
      | succ m =>
          unfold shrinkSize
          simp only [Nat.add_sub_cancel] at ha
          rw [if_neg (by rw [ha]; exact fun hc => Bool.noConfusion hc)]

end ObjectSlotBase

/-- C8: `ShrinkToFit` removes exactly the contiguous run of dead slots at
the high end: the remaining capacity never exceeds the old one, every
removed index was dead, the new boundary slot (if any) is alive, every
parallel vector becomes its prefix below the truncation point, the free
list keeps exactly (and in order) its in-range indices, every previously
valid handle stays valid, and when no trailing dead run exists the pool is
returned unchanged. -/
theorem shrink_truncates_trailing_dead {T : Type} (p : ObjectSlotBase T) (hwf : p.WF) :
    p.ShrinkToFit.Capacity ≤ p.Capacity ∧
    (∀ i, p.ShrinkToFit.Capacity ≤ i → i < p.Capacity → p.m_alive.getD i false = false) ∧
    (p.ShrinkToFit.Capacity = 0 ∨
      p.m_alive.getD (p.ShrinkToFit.Capacity - 1) false = true) ∧
    p.ShrinkToFit.m_data = p.m_data.take p.ShrinkToFit.Capacity ∧
    p.ShrinkToFit.m_generations = p.m_generations.take p.ShrinkToFit.Capacity ∧
    p.ShrinkToFit.m_alive = p.m_alive.take p.ShrinkToFit.Capacity ∧
    p.ShrinkToFit.m_refCounts = p.m_refCounts.take p.ShrinkToFit.Capacity ∧
    p.ShrinkToFit.m_freeList =
      p.m_freeList.filter (fun index => index < p.ShrinkToFit.Capacity) ∧
    p.ShrinkToFit.Count = p.Count ∧
    (∀ h : SlotHandle, p.IsValidHandle h = true → p.ShrinkToFit.IsValidHandle h = true) ∧
    ((p.Capacity = 0 ∨ p.m_alive.getD (p.Capacity - 1) false = true) → p.ShrinkToFit = p) := by
  obtain ⟨hgl, hal, hrl, hcl, hfree⟩ := hwf
  have hsle := ObjectSlotBase.shrinkSize_le p.m_alive p.m_data.length
  by_cases hns : ObjectSlotBase.shrinkSize p.m_alive p.m_data.length = p.m_data.length
  · have hid : p.ShrinkToFit = p := by
      unfold ObjectSlotBase.ShrinkToFit
      rw [if_pos hns]
    refine ⟨by rw [hid], ?_, ?_, ?_, ?_, ?_, ?_, ?_, by rw [hid],
      fun h hv => by rw [hid]; exact hv, fun _ => hid⟩
    · intro i hgei hlti
      rw [hid] at hgei
      unfold ObjectSlotBase.Capacity at hgei hlti
      omega
    · rw [hid]
      unfold ObjectSlotBase.Capacity
      rw [← hns]
      exact ObjectSlotBase.shrinkSize_boundary p.m_alive p.m_data.length
    · rw [hid]
      unfold ObjectSlotBase.Capacity
      rw [List.take_length]
    · rw [hid]
      unfold ObjectSlotBase.Capacity
      rw [← hgl, List.take_length]
    · rw [hid]
      unfold ObjectSlotBase.Capacity
      rw [← hal, List.take_length]
    · rw [hid]
      unfold ObjectSlotBase.Capacity
      rw [← hrl, List.take_length]
    · rw [hid]
      unfold ObjectSlotBase.Capacity
      have hkeep : ∀ x ∈ p.m_freeList, decide (x < p.m_data.length) = true := by
        intro x hx
        exact decide_eq_true (hfree x hx).1
      exact (List.filter_eq_self.mpr hkeep).symm
  · have hq : p.ShrinkToFit =
        { m_data := p.m_data.take (ObjectSlotBase.shrinkSize p.m_alive p.m_data.length)
          m_generations :=
            p.m_generations.take (ObjectSlotBase.shrinkSize p.m_alive p.m_data.length)
          m_alive := p.m_alive.take (ObjectSlotBase.shrinkSize p.m_alive p.m_data.length)
          m_refCounts :=
            p.m_refCounts.take (ObjectSlotBase.shrinkSize p.m_alive p.m_data.length)
          m_onDestroyCallbacks :=
            p.m_onDestroyCallbacks.take (ObjectSlotBase.shrinkSize p.m_alive p.m_data.length)
          m_freeList := p.m_freeList.filter
            (fun index => index < ObjectSlotBase.shrinkSize p.m_alive p.m_data.length)
          m_count := p.m_count
          m_maxCapacity := p.m_maxCapacity } := by
      simp only [ObjectSlotBase.ShrinkToFit]
      rw [if_neg hns]
    have hcap : p.ShrinkToFit.Capacity = ObjectSlotBase.shrinkSize p.m_alive p.m_data.length := by
      rw [hq]
      unfold ObjectSlotBase.Capacity
      simp only [List.length_take]
      omega
    refine ⟨?_, ?_, ?_, ?_, ?_, ?_, ?_, ?_, ?_, ?_, ?_⟩
    · rw [hcap]
      unfold ObjectSlotBase.Capacity
      omega
    · intro i hgei hlti
      rw [hcap] at hgei
      exact ObjectSlotBase.shrinkSize_dead p.m_alive p.m_data.length i hgei hlti
    · rw [hcap]
      exact ObjectSlotBase.shrinkSize_boundary p.m_alive p.m_data.length
    · rw [hcap, hq]
    · rw [hcap, hq]
    · rw [hcap, hq]
    · rw [hcap, hq]
    · rw [hcap, hq]
    · rw [hq]
      rfl
    · intro h hv
      obtain ⟨hilt, hia, hig⟩ := (ObjectSlotBase.isValidHandle_iff p h).mp hv
      have hiN : h.index < ObjectSlotBase.shrinkSize p.m_alive p.m_data.length := by
        by_contra hgeN
        have hdead := ObjectSlotBase.shrinkSize_dead p.m_alive p.m_data.length h.index
          (by omega) hilt
        rw [hia] at hdead
        cases hdead
      apply (ObjectSlotBase.isValidHandle_iff p.ShrinkToFit h).mpr
      refine ⟨?_, ?_, ?_⟩
      · rw [hq]
        simp only [List.length_take]
        omega
      · rw [hq]
        show (p.m_alive.take (ObjectSlotBase.shrinkSize p.m_alive p.m_data.length)).getD
            h.index false = true
        rw [List.getD_eq_getElem?_getD, List.getElem?_take, if_pos hiN,
          ← List.getD_eq_getElem?_getD]
        exact hia
      · rw [hq]
        show (p.m_generations.take (ObjectSlotBase.shrinkSize p.m_alive p.m_data.length)).getD
            h.index 0 = h.generation
        rw [List.getD_eq_getElem?_getD, List.getElem?_take, if_pos hiN,
          ← List.getD_eq_getElem?_getD]
        exact hig
    · intro hno
      exact absurd (ObjectSlotBase.shrinkSize_of_last_alive p.m_alive p.m_data.length hno) hns

/-- Witness for C8 at the five-slot pool with dead trailing slots 3 and 4:
capacity drops from 5 to 3, the handles of indices 0, 1, 2 stay valid and
the truncated indices leave the free list. -/
theorem shrink_truncates_trailing_dead_witness :
    poolFive.ShrinkToFit.Capacity = 3 ∧
    poolFive.ShrinkToFit.IsValidHandle ⟨0, 0⟩ = true ∧
    poolFive.ShrinkToFit.IsValidHandle ⟨1, 0⟩ = true ∧
    poolFive.ShrinkToFit.IsValidHandle ⟨2, 0⟩ = true ∧
    poolFive.ShrinkToFit.m_freeList = [] ∧
    poolFive.ShrinkToFit.Count = 3 := by
  have hh := shrink_truncates_trailing_dead poolFive (by decide)
  refine ⟨by decide, ?_, ?_, ?_, by decide, hh.2.2.2.2.2.2.2.2.1⟩
  · exact hh.2.2.2.2.2.2.2.2.2.1 ⟨0, 0⟩ (by decide)
  · exact hh.2.2.2.2.2.2.2.2.2.1 ⟨1, 0⟩ (by decide)
  · exact hh.2.2.2.2.2.2.2.2.2.1 ⟨2, 0⟩ (by decide)

/-- Staleness makes a handle invalid: the slot generation has moved past
the handle generation, so the generation comparison fails (or the index is
already out of range). -/
theorem stale_not_valid {T : Type} (p : ObjectSlotBase T) (h : SlotHandle) (hs : Stale p h) :
    p.IsValidHandle h = false := by
  cases hv : p.IsValidHandle h
  · rfl
  · have hg := ((ObjectSlotBase.isValidHandle_iff p h).mp hv).2.2
    obtain ⟨-, hlt⟩ := hs
    omega

/-- Bumping any slot generation preserves the strict bound a stale handle
has against its slot generation. -/
theorem stale_after_bump {T : Type} (p : ObjectSlotBase T) (h : SlotHandle) (j : Nat)
    (hlen : h.index < p.m_generations.length)
    (hgen : h.generation < p.m_generations.getD h.index 0) :
    h.generation <
      (p.m_generations.set j (p.m_generations.getD j 0 + 1)).getD h.index 0 := by
  rw [List.getD_eq_getElem?_getD, List.getElem?_set]
  by_cases hj : j = h.index
  · rw [if_pos hj, if_pos (show j < p.m_generations.length by omega)]
    simp only [Option.getD_some]
    have hsame : p.m_generations.getD j 0 = p.m_generations.getD h.index 0 := by rw [hj]
    omega
  · rw [if_neg hj, ← List.getD_eq_getElem?_getD]
    exact hgen

/-- Every slot-keeping public operation preserves staleness of a handle:
generations never decrease and allocated positions are never dropped. -/
theorem stale_preserved_applyOp {T : Type} (p : ObjectSlotBase T) (h : SlotHandle)
    (op : PoolOp T) (hk : op.keepsSlots = true) (hs : Stale p h) :
    Stale (applyOp p op) h := by
  obtain ⟨hlen, hgen⟩ := hs
  cases op with
  | create v =>
      show Stale (ObjectSlot.Create p v).1 h
      unfold ObjectSlot.Create
      cases hcc : p.CanCreate
      · exact ⟨hlen, hgen⟩
      · simp only [Bool.not_true, Bool.false_eq_true, if_false]
        have hgens : ((p.AllocateSlot v).1.AddRef (p.AllocateSlot v).2).m_generations =
            (p.AllocateSlot v).1.m_generations :=
          (ObjectSlotBase.addRef_fields (p.AllocateSlot v).1 (p.AllocateSlot v).2).2.1
        unfold ObjectSlotBase.AllocateSlot at hgens ⊢
        cases hfl : p.m_freeList with
        | cons idx rest =>
            rw [hfl] at hgens
            exact ⟨by rw [hgens]; exact hlen, by rw [hgens]; exact hgen⟩
        | nil =>
            rw [hfl] at hgens
            constructor
            · rw [hgens]
              simp only [List.length_append, List.length_cons, List.length_nil]
              omega
            · rw [hgens]
              show h.generation < (p.m_generations ++ [0]).getD h.index 0
              rw [List.getD_append _ _ _ _ hlen]
              exact hgen
  | addRef h2 =>
      show Stale (p.AddRef h2) h
      have hgens := (ObjectSlotBase.addRef_fields p h2).2.1
      exact ⟨by rw [hgens]; exact hlen, by rw [hgens]; exact hgen⟩
  | releaseRef h2 =>
      show Stale (p.ReleaseRef h2).1 h
      unfold ObjectSlotBase.ReleaseRef
      cases hv2 : p.IsValidHandle h2
      · simp only [Bool.false_eq_true, if_false]
        exact ⟨hlen, hgen⟩
      · simp only [if_true]
        by_cases hrc : p.m_refCounts.getD h2.index 0 - 1 = 0
        · rw [if_pos hrc]
          unfold ObjectSlotBase.RemoveInternal
          refine ⟨?_, ?_⟩
          · simp only [List.length_set]
            exact hlen
          · show h.generation <
              (p.m_generations.set h2.index (p.m_generations.getD h2.index 0 + 1)).getD
                h.index 0
            exact stale_after_bump p h h2.index hlen hgen
        · rw [if_neg hrc]
          exact ⟨hlen, hgen⟩
  | setMaxCapacity n => exact ⟨hlen, hgen⟩
  | reserve n => exact ⟨hlen, hgen⟩
  | setOnDestroy h2 k =>
      show Stale (p.SetOnDestroyCallback h2 k) h
      unfold ObjectSlotBase.SetOnDestroyCallback
      split
      · exact ⟨hlen, hgen⟩
      · exact ⟨hlen, hgen⟩
  | clearOnDestroy h2 =>
      show Stale (p.ClearOnDestroyCallback h2) h
      unfold ObjectSlotBase.ClearOnDestroyCallback
      split
      · exact ⟨hlen, hgen⟩
      · exact ⟨hlen, hgen⟩
  | shrinkToFit => cases hk
  | clear => cases hk

/-- Staleness is preserved along any sequence of slot-keeping public
operations. -/
theorem stale_preserved_applyOps {T : Type} (p : ObjectSlotBase T) (h : SlotHandle)
    (ops : List (PoolOp T)) (hops : ∀ op ∈ ops, op.keepsSlots = true) (hs : Stale p h) :
    Stale (applyOps p ops) h := by
  induction ops generalizing p with
  | nil => exact hs
  | cons op ops ih =>
      show Stale (applyOps (applyOp p op) ops) h
      exact ih (applyOp p op)
        (fun o ho => hops o (List.mem_cons_of_mem _ ho))
        (stale_preserved_applyOp p h op (hops op (List.mem_cons_self _ _)) hs)

/-- Releasing the last reference of a valid handle removes the slot and
leaves the handle stale: the generation is incremented past it. -/
theorem releaseRef_last_stales {T : Type} (p : ObjectSlotBase T) (h : SlotHandle)
    (hv : p.IsValidHandle h = true) (hrc : p.m_refCounts.getD h.index 0 = 1)
    (hlen : h.index < p.m_generations.length) :
    Stale (p.ReleaseRef h).1 h := by
  unfold ObjectSlotBase.ReleaseRef
  rw [hv, hrc]
  simp only [if_true, Nat.sub_self]
  unfold ObjectSlotBase.RemoveInternal
  have hg := ((ObjectSlotBase.isValidHandle_iff p h).mp hv).2.2
  refine ⟨?_, ?_⟩
  · simp only [List.length_set]
    exact hlen
  · show h.generation <
      (p.m_generations.set h.index (p.m_generations.getD h.index 0 + 1)).getD h.index 0
    rw [List.getD_eq_getElem?_getD, List.getElem?_set, if_pos rfl, if_pos hlen]
    simp only [Option.getD_some]
    omega

/-- C2 amended: a handle freed by a last-reference release never validates
again as long as the subsequent public operations keep slot storage
allocated (any mix of create, addRef, releaseRef, setMaxCapacity, reserve
and hook updates — everything except `Clear` and `ShrinkToFit`): the
generation is incremented before any reuse of the index. `Clear` discards
the generation array itself, so handles minted before a `Clear` can
validate again after the pool refills (see the counterexample), which is
why `Clear` must be excluded. -/
theorem freed_handle_never_revalidates {T : Type} (p : ObjectSlotBase T) (h : SlotHandle)
    (ops : List (PoolOp T)) (hv : p.IsValidHandle h = true)
    (hrc : p.m_refCounts.getD h.index 0 = 1)
    (hlen : h.index < p.m_generations.length)
    (hops : ∀ op ∈ ops, op.keepsSlots = true) :
    (p.ReleaseRef h).1.IsValidHandle h = false ∧
    (applyOps (p.ReleaseRef h).1 ops).IsValidHandle h = false := by
  have hst := releaseRef_last_stales p h hv hrc hlen
  exact ⟨stale_not_valid _ h hst,
    stale_not_valid _ h (stale_preserved_applyOps _ h ops hops hst)⟩

/-- Witness for the amended C2: in the one-slot pool, releasing the only
reference to handle (0,0) and then creating a fresh element (which reuses
index 0), adding and releasing another reference, still leaves (0,0)
invalid. -/
theorem freed_handle_never_revalidates_witness :
    ((poolOne.ReleaseRef ⟨0, 0⟩).1).IsValidHandle ⟨0, 0⟩ = false ∧
    (applyOps (poolOne.ReleaseRef ⟨0, 0⟩).1
      [PoolOp.create 9, PoolOp.addRef ⟨0, 1⟩, PoolOp.releaseRef ⟨0, 1⟩]).IsValidHandle
        ⟨0, 0⟩ = false :=
  freed_handle_never_revalidates poolOne ⟨0, 0⟩
    [PoolOp.create 9, PoolOp.addRef ⟨0, 1⟩, PoolOp.releaseRef ⟨0, 1⟩]
    (by decide) (by decide) (by decide) (by decide)

/-- C2 counterexample: the claim includes `Clear` among the freeing
operations, but `Clear` discards the generation array. Concretely: handle
(0,0) is minted while its slot is alive, the slot is freed by `Clear`
(the handle momentarily invalid), and a subsequent `Create` reuses index 0
at generation 0 — the old handle validates again. -/
theorem freed_handle_revalidates_after_clear_cex :
    genStep1.2.m_handle = ⟨0, 0⟩ ∧
    genStep1.1.IsValidHandle ⟨0, 0⟩ = true ∧
    genStep2.IsValidHandle ⟨0, 0⟩ = false ∧
    genStep3.1.IsValidHandle ⟨0, 0⟩ = true := by
  decide

/-- C7 counterexample: copy-constructing from a bound reference whose
handle is stale does not produce the empty reference (null pool, sentinel
handle) the claim demands — the C++ copy constructor copies the pool
pointer and handle unconditionally and only skips the refcount increment,
so the copy keeps the stale fields. -/
theorem copy_of_invalid_keeps_fields_cex :
    SlotRef.RefIsValid poolRecycled refStale = false ∧
    (SlotRef.copyCtor poolRecycled refStale).1 = poolRecycled ∧
    (SlotRef.copyCtor poolRecycled refStale).2 ≠ SlotRef.empty ∧
    (SlotRef.copyCtor poolRecycled refStale).2.m_slot = true ∧
    (SlotRef.copyCtor poolRecycled refStale).2.m_handle = ⟨0, 0⟩ := by
  decide

/-- C7 amended: copy construction increments the slot refcount and shares
pool pointer and handle exactly when the source is bound and its handle
validates; otherwise it still copies pool pointer and handle but leaves
the pool (hence the refcount) untouched, making the copy invalid rather
than empty; copy assignment to a different object first releases whatever
the target held and then behaves like copy construction from the source
against the released pool. -/
theorem copy_shares_and_increments {T : Type} (p : ObjectSlotBase T) (s t : SlotRef)
    (hlen : s.m_handle.index < p.m_refCounts.length) :
    (SlotRef.RefIsValid p s = true →
      (SlotRef.copyCtor p s).2 = s ∧
      (SlotRef.copyCtor p s).1 = p.AddRef s.m_handle ∧
      ((SlotRef.copyCtor p s).1).GetRefCount s.m_handle = p.GetRefCount s.m_handle + 1 ∧
      SlotRef.RefIsValid (SlotRef.copyCtor p s).1 (SlotRef.copyCtor p s).2 = true) ∧
    (SlotRef.RefIsValid p s = false → SlotRef.copyCtor p s = (p, s)) ∧
    SlotRef.copyAssign p t s false = SlotRef.copyCtor (SlotRef.ReleaseOn p t).1 s := by
  refine ⟨fun hval => ?_, fun hinv => ?_, rfl⟩
  · have hb : s.m_slot = true := by
      cases hbs : s.m_slot
      · unfold SlotRef.RefIsValid at hval
        rw [hbs] at hval
        cases hval
      · rfl
    have hv : p.IsValidHandle s.m_handle = true := by
      unfold SlotRef.RefIsValid at hval
      rw [hb] at hval
      simpa using hval
    have hc : SlotRef.copyCtor p s = (p.AddRef s.m_handle, s) := by
      simp only [SlotRef.copyCtor]
      rw [show (s.m_slot && p.IsValidHandle s.m_handle) = true from hval]
      rfl
    rw [hc]
    refine ⟨rfl, rfl, ObjectSlotBase.getRefCount_addRef_self p s.m_handle hv hlen, ?_⟩
    unfold SlotRef.RefIsValid
    rw [hb, ObjectSlotBase.isValidHandle_addRef, hv]
    rfl
  · have hc : SlotRef.copyCtor p s = (p, s) := by
      simp only [SlotRef.copyCtor]
      rw [show (s.m_slot && p.IsValidHandle s.m_handle) = false from hinv]
      rfl
    exact hc

/-- Witness for the amended C7: copying the live reference of the one-slot
pool bumps the refcount 1 to 2; over the recycled pool the stale copy
keeps its fields and leaves the pool alone; the assignment decomposition
holds at those concrete values. -/
theorem copy_shares_and_increments_witness :
    ((SlotRef.copyCtor poolOne ⟨⟨0, 0⟩, true⟩).1).GetRefCount ⟨0, 0⟩ =
      poolOne.GetRefCount ⟨0, 0⟩ + 1 ∧
    SlotRef.copyCtor poolRecycled refStale = (poolRecycled, refStale) ∧
    SlotRef.copyAssign poolOne refStale ⟨⟨0, 0⟩, true⟩ false =
      SlotRef.copyCtor (SlotRef.ReleaseOn poolOne refStale).1 ⟨⟨0, 0⟩, true⟩ := by
  refine ⟨?_, ?_, ?_⟩
  · exact ((copy_shares_and_increments poolOne ⟨⟨0, 0⟩, true⟩ refStale (by decide)).1
      (by decide)).2.2.1
  · exact (copy_shares_and_increments poolRecycled refStale refStale (by decide)).2.1
      (by decide)
  · exact (copy_shares_and_increments poolOne ⟨⟨0, 0⟩, true⟩ refStale (by decide)).2.2

namespace ObjectSlotBase

/-- Allocation out of a well-formed pool yields a handle that validates
against the new pool, with refcount 0 and its index inside each mutated
vector. -/
theorem allocateSlot_fresh (p : ObjectSlotBase T) (v : T) (hwf : p.WF) :
    ((p.AllocateSlot v).1).IsValidHandle (p.AllocateSlot v).2 = true ∧
    ((p.AllocateSlot v).1).m_refCounts.getD (p.AllocateSlot v).2.index 0 = 0 ∧
    (p.AllocateSlot v).2.index < ((p.AllocateSlot v).1).m_refCounts.length ∧
    (p.AllocateSlot v).2.index < ((p.AllocateSlot v).1).m_generations.length ∧
    (p.AllocateSlot v).2.index < ((p.AllocateSlot v).1).m_alive.length := by
  obtain ⟨hgl, hal, hrl, hcl, hfree⟩ := hwf
  unfold AllocateSlot
  cases hfl : p.m_freeList with
  | cons idx rest =>
      obtain ⟨hidx, hdead⟩ := hfree idx (by rw [hfl]; exact List.mem_cons_self _ _)
      refine ⟨?_, ?_, ?_, ?_, ?_⟩
      · apply (isValidHandle_iff _ _).mpr
        refine ⟨?_, ?_, ?_⟩
        · show idx < (p.m_data.set idx v).length
          rw [List.length_set]
          exact hidx
        · show (p.m_alive.set idx true).getD idx false = true
          rw [List.getD_eq_getElem?_getD, List.getElem?_set_self (by omega)]
          rfl
        · rfl
      · show (p.m_refCounts.set idx 0).getD idx 0 = 0
        rw [List.getD_eq_getElem?_getD, List.getElem?_set_self (by omega)]
        rfl
      · show idx < (p.m_refCounts.set idx 0).length
        rw [List.length_set]
        omega
      · show idx < p.m_generations.length
        omega
      · show idx < (p.m_alive.set idx true).length
        rw [List.length_set]
        omega
  | nil =>
      refine ⟨?_, ?_, ?_, ?_, ?_⟩
      · apply (isValidHandle_iff _ _).mpr
        refine ⟨?_, ?_, ?_⟩
        · show p.m_data.length < (p.m_data ++ [v]).length
          rw [List.length_append]
          simp
        · show (p.m_alive ++ [true]).getD p.m_data.length false = true
          rw [List.getD_eq_getElem?_getD, ← hal, List.getElem?_concat_length]
          rfl
        · show (p.m_generations ++ [0]).getD p.m_data.length 0 = 0
          rw [List.getD_eq_getElem?_getD, ← hgl, List.getElem?_concat_length]
          rfl
      · show (p.m_refCounts ++ [0]).getD p.m_data.length 0 = 0
        rw [List.getD_eq_getElem?_getD, ← hrl, List.getElem?_concat_length]
        rfl
      · show p.m_data.length < (p.m_refCounts ++ [0]).length
        rw [List.length_append]
        simp only [List.length_cons, List.length_nil]
        omega
      · show p.m_data.length < (p.m_generations ++ [0]).length
        rw [List.length_append]
        simp only [List.length_cons, List.length_nil]
        omega
      · show p.m_data.length < (p.m_alive ++ [true]).length
        rw [List.length_append]
        simp only [List.length_cons, List.length_nil]
        omega

/-- `AddRef` on a live slot raises its refcount by one and keeps the slot
live. -/
theorem addRef_liveAt (p : ObjectSlotBase T) (h : SlotHandle) (n : Nat)
    (hl : LiveAt p h n) : LiveAt (p.AddRef h) h (n + 1) := by
  obtain ⟨hv, hrc, hrlen, hglen, halen⟩ := hl
  have ha : p.AddRef h =
      { p with m_refCounts := p.m_refCounts.set h.index (p.m_refCounts.getD h.index 0 + 1) } := by
    unfold AddRef
    rw [hv]
    rfl
  refine ⟨by rw [isValidHandle_addRef]; exact hv, ?_, ?_, ?_, ?_⟩
  · rw [ha]
    show (p.m_refCounts.set h.index (p.m_refCounts.getD h.index 0 + 1)).getD h.index 0 = n + 1
    rw [List.getD_eq_getElem?_getD, List.getElem?_set_self hrlen]
    simp only [Option.getD_some]
    omega
  · rw [ha]
    show h.index < (p.m_refCounts.set h.index (p.m_refCounts.getD h.index 0 + 1)).length
    rw [List.length_set]
    exact hrlen
  · rw [ha]
    exact hglen
  · rw [ha]
    exact halen

/-- `ReleaseRef` on a live slot with at least two references decrements the
refcount and keeps the slot live. -/
theorem releaseRef_liveAt (p : ObjectSlotBase T) (h : SlotHandle) (n : Nat)
    (hl : LiveAt p h n) (h2 : 2 ≤ n) : LiveAt (p.ReleaseRef h).1 h (n - 1) := by
  obtain ⟨hv, hrc, hrlen, hglen, halen⟩ := hl
  have hr : (p.ReleaseRef h).1 =
      { p with m_refCounts := p.m_refCounts.set h.index (n - 1) } := by
    have hne : ¬(n - 1 = 0) := by omega
    have hrc2 : (p.m_refCounts[h.index]?).getD 0 = n := by
      rw [← List.getD_eq_getElem?_getD]
      exact hrc
    simp [ReleaseRef, hv, hrc, hrc2, hne]
  refine ⟨?_, ?_, ?_, ?_, ?_⟩
  · rw [hr]
    exact hv
  · rw [hr]
    show (p.m_refCounts.set h.index (n - 1)).getD h.index 0 = n - 1
    rw [List.getD_eq_getElem?_getD, List.getElem?_set_self hrlen]
    rfl
  · rw [hr]
    show h.index < (p.m_refCounts.set h.index (n - 1)).length
    rw [List.length_set]
    exact hrlen
  · rw [hr]
    exact hglen
  · rw [hr]
    exact halen

/-- `ReleaseRef` on a live slot whose refcount is exactly 1 removes the
slot, invalidating the handle. -/
theorem releaseRef_last_invalidates (p : ObjectSlotBase T) (h : SlotHandle)
    (hl : LiveAt p h 1) : (p.ReleaseRef h).1.IsValidHandle h = false := by
  obtain ⟨hv, hrc, hrlen, hglen, halen⟩ := hl
  exact stale_not_valid _ h (releaseRef_last_stales p h hv hrc hglen)

/-- Iterated `AddRef` raises a live slot's refcount by the number of
copies. -/
theorem iterAddRef_liveAt (p : ObjectSlotBase T) (h : SlotHandle) (n m : Nat)
    (hl : LiveAt p h n) : LiveAt (iterAddRef p h m) h (n + m) := by
  induction m generalizing p n with
  | zero => exact hl
  | succ j ih =>
      show LiveAt (iterAddRef (p.AddRef h) h j) h (n + (j + 1))
      have hstep := ih (p.AddRef h) (n + 1) (addRef_liveAt p h n hl)
      rw [show n + (j + 1) = n + 1 + j from by omega]
      exact hstep

/-- Iterated `ReleaseRef`, stopped short of the refcount, lowers a live
slot's refcount by the number of drops while keeping it live. -/
theorem iterReleaseRef_liveAt (p : ObjectSlotBase T) (h : SlotHandle) (n k : Nat)
    (hl : LiveAt p h n) (hk : k < n) : LiveAt (iterReleaseRef p h k) h (n - k) := by
  induction k generalizing p n with
  | zero =>
      show LiveAt p h (n - 0)
      rw [Nat.sub_zero]
      exact hl
  | succ j ih =>
      show LiveAt (iterReleaseRef (p.ReleaseRef h).1 h j) h (n - (j + 1))
      have hstep := releaseRef_liveAt p h n hl (by omega)
      have hrec := ih (p.ReleaseRef h).1 (n - 1) hstep (by omega)
      rw [show n - (j + 1) = n - 1 - j from by omega]
      exact hrec

/-- Dropping every reference of a live slot removes it: after exactly
`n` releases the handle no longer validates. -/
theorem iterReleaseRef_all_invalidates (p : ObjectSlotBase T) (h : SlotHandle) (n : Nat)
    (hl : LiveAt p h n) (hn : 1 ≤ n) :
    (iterReleaseRef p h n).IsValidHandle h = false := by
  induction n generalizing p with
  | zero => omega
  | succ m ih =>
      show (iterReleaseRef (p.ReleaseRef h).1 h m).IsValidHandle h = false
      by_cases hm : m = 0
      · subst hm
        show (p.ReleaseRef h).1.IsValidHandle h = false
        exact releaseRef_last_invalidates p h hl
      · have hstep := releaseRef_liveAt p h (m + 1) hl (by omega)
        rw [show m + 1 - 1 = m from by omega] at hstep
        exact ih (p.ReleaseRef h).1 hstep (by omega)

end ObjectSlotBase

/-- Creation (`ObjectSlot::Create`) on a well-formed pool that admits it
yields a bound reference whose slot is live with refcount exactly 1. -/
theorem create_liveAt {T : Type} (p : ObjectSlotBase T) (v : T) (hwf : p.WF)
    (hcc : p.CanCreate = true) :
    LiveAt (ObjectSlot.Create p v).1 (ObjectSlot.Create p v).2.m_handle 1 ∧
    (ObjectSlot.Create p v).2.m_slot = true := by
  have hcr : ObjectSlot.Create p v =
      ((p.AllocateSlot v).1.AddRef (p.AllocateSlot v).2, ⟨(p.AllocateSlot v).2, true⟩) := by
    unfold ObjectSlot.Create
    rw [hcc]
    rfl
  rw [hcr]
  obtain ⟨hval, hrc0, hrl, hgl, hal⟩ := ObjectSlotBase.allocateSlot_fresh p v hwf
  constructor
  · exact ObjectSlotBase.addRef_liveAt (p.AllocateSlot v).1 (p.AllocateSlot v).2 0
      ⟨hval, hrc0, hrl, hgl, hal⟩
  · rfl

/-- C3: create an element in a well-formed pool that admits creation (one
strong reference, refcount 1), make `n - 1` further copies so `n`
references exist, then drop `k ≤ n` of them. While a copy remains
(`k < n`), `UseCount` on it reads `n - k` and the handle stays valid;
dropping the last copy (`k = n`) removes the element, so the handle — and
with it every handle derived from the element beforehand, all of which
carry the same index and generation — no longer validates. -/
theorem refcount_accounting {T : Type} (p : ObjectSlotBase T) (v : T) (n k : Nat)
    (hwf : p.WF) (hcc : p.CanCreate = true) (hn : 1 ≤ n) (_hk : k ≤ n) :
    (k < n →
      SlotRef.UseCount
        (iterReleaseRef (iterAddRef (ObjectSlot.Create p v).1
            (ObjectSlot.Create p v).2.m_handle (n - 1))
          (ObjectSlot.Create p v).2.m_handle k)
        (ObjectSlot.Create p v).2 = n - k ∧
      (iterReleaseRef (iterAddRef (ObjectSlot.Create p v).1
            (ObjectSlot.Create p v).2.m_handle (n - 1))
          (ObjectSlot.Create p v).2.m_handle k).IsValidHandle
        (ObjectSlot.Create p v).2.m_handle = true) ∧
    (k = n →
      (iterReleaseRef (iterAddRef (ObjectSlot.Create p v).1
            (ObjectSlot.Create p v).2.m_handle (n - 1))
          (ObjectSlot.Create p v).2.m_handle n).IsValidHandle
        (ObjectSlot.Create p v).2.m_handle = false) := by
  have hcl := create_liveAt p v hwf hcc
  have hl2 : LiveAt
      (iterAddRef (ObjectSlot.Create p v).1 (ObjectSlot.Create p v).2.m_handle (n - 1))
      (ObjectSlot.Create p v).2.m_handle n := by
    have hres := ObjectSlotBase.iterAddRef_liveAt (ObjectSlot.Create p v).1
      (ObjectSlot.Create p v).2.m_handle 1 (n - 1) hcl.1
    rw [show 1 + (n - 1) = n from by omega] at hres
    exact hres
  refine ⟨fun hklt => ?_, fun _ => ?_⟩
  · have hl3 := ObjectSlotBase.iterReleaseRef_liveAt _ _ n k hl2 hklt
    obtain ⟨hv3, hrc3, -, -, -⟩ := hl3
    refine ⟨?_, hv3⟩
    have hval : SlotRef.RefIsValid
        (iterReleaseRef (iterAddRef (ObjectSlot.Create p v).1
            (ObjectSlot.Create p v).2.m_handle (n - 1))
          (ObjectSlot.Create p v).2.m_handle k)
        (ObjectSlot.Create p v).2 = true := by
      unfold SlotRef.RefIsValid
      rw [hcl.2, hv3]
      rfl
    unfold SlotRef.UseCount
    rw [hval]
    unfold ObjectSlotBase.GetRefCount
    rw [hv3]
    exact hrc3
  · exact ObjectSlotBase.iterReleaseRef_all_invalidates _ _ n hl2 hn

/-- Witness for C3 on a fresh pool with n = 2, k = 1 (one copy remains,
use count 1) and n = 2, k = 2 (last copy dropped, handle invalid). -/
theorem refcount_accounting_witness :
    SlotRef.UseCount
      (iterReleaseRef
        (iterAddRef (ObjectSlot.Create (ObjectSlotBase.empty : ObjectSlotBase Nat) 5).1
          (ObjectSlot.Create (ObjectSlotBase.empty : ObjectSlotBase Nat) 5).2.m_handle 1)
        (ObjectSlot.Create (ObjectSlotBase.empty : ObjectSlotBase Nat) 5).2.m_handle 1)
      (ObjectSlot.Create (ObjectSlotBase.empty : ObjectSlotBase Nat) 5).2 = 1 ∧
    (iterReleaseRef
        (iterAddRef (ObjectSlot.Create (ObjectSlotBase.empty : ObjectSlotBase Nat) 5).1
          (ObjectSlot.Create (ObjectSlotBase.empty : ObjectSlotBase Nat) 5).2.m_handle 1)
        (ObjectSlot.Create (ObjectSlotBase.empty : ObjectSlotBase Nat) 5).2.m_handle
      2).IsValidHandle
      (ObjectSlot.Create (ObjectSlotBase.empty : ObjectSlotBase Nat) 5).2.m_handle = false := by
  refine ⟨?_, ?_⟩
  · exact ((refcount_accounting (ObjectSlotBase.empty : ObjectSlotBase Nat) 5 2 1
      (by decide) (by decide) (by decide) (by decide)).1 (by decide)).1
  · exact (refcount_accounting (ObjectSlotBase.empty : ObjectSlotBase Nat) 5 2 2
      (by decide) (by decide) (by decide) (by decide)).2 rfl
